import Mathlib

/-!
# Activation layers and the Pong training loop of `gold`

A shallow embedding of

* `pkg/v1/model/layers/activation.go`: the six activation layers with their
  constructors and the methods `Fwd`, `Learnables`, `Compile`, `Clone`;
* `pkg/v1/agent/deepq/experiments/pong/main.go`: the episode / timestep loop.

Go pointers to structs with fields are indices into a heap, slices are views
(array, offset, length) on heap arrays, so that aliasing is visible. The
gorgonia graph operations are external and are taken as a record of
state-passing functions on an abstract graph state.
-/

namespace Gold

/-! ## Values and memory -/

/-- A `float64`, held as its IEEE-754 binary64 bit pattern. -/
structure Float64 where
  bits : Nat
deriving DecidableEq, Repr

/-- The Go constant `0.01` converted to `float64` (round to nearest). -/
def Float64.c0_01 : Float64 := ⟨0x3F847AE147AE147B⟩

/-- The rational value of a finite `float64`; `none` for infinities and NaN. -/
def Float64.toRat (f : Float64) : Option ℚ :=
  let b : ℕ := f.bits % 2 ^ 64
  let sign : ℕ := b / 2 ^ 63
  let e : ℕ := (b / 2 ^ 52) % 2 ^ 11
  let m : ℕ := b % 2 ^ 52
  if e = 2047 then none
  else
    let mag : ℚ :=
      if e = 0 then (m : ℚ) / 2 ^ 1074
      else (((2 ^ 52 + m : ℕ) : ℚ) * 2 ^ e) / 2 ^ 1075
    some (if sign = 1 then -mag else mag)

/-- A Go `[]int` slice: a view of `len` elements from offset `off` of heap
array `arr`. -/
structure Slice where
  arr : Nat
  off : Nat
  len : Nat
deriving DecidableEq, Repr

/-- The nil slice (length 0). -/
def Slice.nil : Slice := ⟨0, 0, 0⟩

/-- `type LeakyReLUActivation struct { alpha float64 }`. -/
structure LeakyReLUActivation where
  alpha : Float64
deriving DecidableEq, Repr

/-- `type SoftmaxActivation struct { axis []int }`. -/
structure SoftmaxActivation where
  axis : Slice
deriving DecidableEq, Repr

/-- Heap: the `int` arrays backing slices and the allocated activation structs
that have fields. A pointer is an index into the respective list. -/
structure Heap where
  arrays : List (List Int)
  leaky : List LeakyReLUActivation
  softmax : List SoftmaxActivation
deriving DecidableEq, Repr

/-- The elements seen through a slice. -/
def Heap.readSlice (h : Heap) (s : Slice) : List Int :=
  ((h.arrays.getD s.arr []).drop s.off).take s.len

/-- The Go statement `s[i] = v` on a slice; `none` is the index-out-of-range
failure. -/
def Heap.writeSlice (h : Heap) (s : Slice) (i : Nat) (v : Int) : Option Heap :=
  if i < s.len then
    some { h with arrays := h.arrays.set s.arr ((h.arrays.getD s.arr []).set (s.off + i) v) }
  else none

/-- One call of `fmt.Printf`: the format string and its evaluated arguments. -/
inductive PrintArg
  | shape (s : List Int)
  | int (n : Int)
deriving DecidableEq, Repr

/-- A record of one `fmt.Printf` call. -/
structure Printed where
  format : String
  args : List PrintArg
deriving DecidableEq, Repr

/-- Everything an activation method can touch: the heap, the gorgonia
expression graph and standard output. -/
structure World (G : Type) where
  heap : Heap
  graph : G
  stdout : List Printed

/-- The gorgonia operations used by the layers. Each returns its
`(*Node, error)` pair and the new graph state. `Shape` and `Dims` are
`none` where the call fails (nil node). -/
structure Gorgonia (Node G Err : Type) where
  Sigmoid : Node → G → (Node × Option Err) × G
  Tanh : Node → G → (Node × Option Err) × G
  Rectify : Node → G → (Node × Option Err) × G
  LeakyRelu : Node → Float64 → G → (Node × Option Err) × G
  SoftMax : Node → List Int → G → (Node × Option Err) × G
  Shape : Node → Option (List Int)
  Dims : Node → Option Int

/-- An `Activation` interface value: the dynamic type and, for the struct
types that have fields, the pointer. The other four are pointers to empty
structs and carry no state. -/
inductive Activation
  | sigmoid
  | tanh
  | relu
  | leakyReLU (p : Nat)
  | softmax (p : Nat)
  | linear
deriving DecidableEq, Repr

/-- The variant of an activation. -/
inductive Variant
  | Sigmoid | Tanh | ReLU | LeakyReLU | Softmax | Linear
deriving DecidableEq, Repr

/-- The variant-specific parameters of an activation. -/
inductive Params
  | unit
  | alpha (a : Float64)
  | axes (xs : List Int)
deriving DecidableEq, Repr

/-- Dynamic type of an interface value. -/
def Activation.variant : Activation → Variant
  | .sigmoid => .Sigmoid
  | .tanh => .Tanh
  | .relu => .ReLU
  | .leakyReLU _ => .LeakyReLU
  | .softmax _ => .Softmax
  | .linear => .Linear

/-- The parameters an activation holds in a heap; `none` for a dangling
pointer. -/
def Activation.params (h : Heap) : Activation → Option Params
  | .leakyReLU p => (h.leaky[p]?).map fun o => .alpha o.alpha
  | .softmax p => (h.softmax[p]?).map fun o => .axes (h.readSlice o.axis)
  | _ => some .unit

/-! ## Package-level variables -/

/-- Heap after package initialisation: `var LeakyReLU = &LeakyReLUActivation{0.01}`
and `var SoftMax = &SoftmaxActivation{}`. -/
def initHeap : Heap :=
  { arrays := [], leaky := [⟨Float64.c0_01⟩], softmax := [⟨Slice.nil⟩] }

/-- `var Sigmoid = &SigmoidActivation{}`. -/
def Sigmoid : Activation := .sigmoid
/-- `var Tanh = &TanhActivation{}`. -/
def Tanh : Activation := .tanh
/-- `var ReLU = &ReLUActivation{}`. -/
def ReLU : Activation := .relu
/-- `var LeakyReLU = &LeakyReLUActivation{0.01}`. -/
def LeakyReLU : Activation := .leakyReLU 0
/-- `var SoftMax = &SoftmaxActivation{}`. -/
def SoftMax : Activation := .softmax 0
/-- `var Linear = &LinearActivation{}`. -/
def Linear : Activation := .linear

/-- The world right after package initialisation. -/
def initWorld {G : Type} (g0 : G) : World G :=
  { heap := initHeap, graph := g0, stdout := [] }

/-! ## Constructors -/

section Methods

variable {Node G Err Opt : Type}

/-- `func NewSigmoid() *SigmoidActivation`. -/
def NewSigmoid (w : World G) : Activation × World G := (.sigmoid, w)

/-- `func NewTanh() *TanhActivation`. -/
def NewTanh (w : World G) : Activation × World G := (.tanh, w)

/-- `func NewReLU() *ReLUActivation`. -/
def NewReLU (w : World G) : Activation × World G := (.relu, w)

/-- `func NewLinear() *LinearActivation`. -/
def NewLinear (w : World G) : Activation × World G := (.linear, w)

/-- `func NewLeakyReLU(alpha float64) *LeakyReLUActivation`: allocates a
struct holding `alpha`. -/
def NewLeakyReLU (alpha : Float64) (w : World G) : Activation × World G :=
  (.leakyReLU w.heap.leaky.length,
   { w with heap := { w.heap with leaky := w.heap.leaky ++ [⟨alpha⟩] } })

/-- `func NewSoftmax(axis ...int) *SoftmaxActivation`: the variadic parameter
is a slice, stored as it is received. -/
def NewSoftmax (axis : Slice) (w : World G) : Activation × World G :=
  (.softmax w.heap.softmax.length,
   { w with heap := { w.heap with softmax := w.heap.softmax ++ [⟨axis⟩] } })

/-- The slice a call `f(x1, ..., xn)` passes for a variadic parameter: nil for
no arguments, a new array otherwise. (A call `f(s...)` passes `s` itself.) -/
def variadic (xs : List Int) (w : World G) : Slice × World G :=
  if xs = [] then (Slice.nil, w)
  else
    (⟨w.heap.arrays.length, 0, xs.length⟩,
     { w with heap := { w.heap with arrays := w.heap.arrays ++ [xs] } })

/-! ## Methods of the six types. `none` is a nil-pointer failure. -/

/-- Threads a gorgonia call through the world. -/
def callG (r : (Node × Option Err) × G) (w : World G) :
    (Node × Option Err) × World G :=
  (r.1, { w with graph := r.2 })

/-- `func (s *SigmoidActivation) Fwd(x *g.Node) (*g.Node, error)`. -/
def SigmoidActivation.Fwd (g : Gorgonia Node G Err) (x : Node) (w : World G) :
    Option ((Node × Option Err) × World G) :=
  some (callG (g.Sigmoid x w.graph) w)

/-- `func (s *SigmoidActivation) Learnables() (n g.Nodes)`. -/
def SigmoidActivation.Learnables (w : World G) : List Node × World G := ([], w)

/-- `func (s *SigmoidActivation) Compile(x *g.Node, opts ...LayerOpt) {}`. -/
def SigmoidActivation.Compile (_x : Node) (_opts : List Opt) (w : World G) : World G := w

/-- `func (s *SigmoidActivation) Clone() Activation`. -/
def SigmoidActivation.Clone (w : World G) : Option (Activation × World G) :=
  some (NewSigmoid w)

/-- `func (t *TanhActivation) Fwd(x *g.Node) (*g.Node, error)`. -/
def TanhActivation.Fwd (g : Gorgonia Node G Err) (x : Node) (w : World G) :
    Option ((Node × Option Err) × World G) :=
  some (callG (g.Tanh x w.graph) w)

/-- `func (t *TanhActivation) Learnables() (n g.Nodes)`. -/
def TanhActivation.Learnables (w : World G) : List Node × World G := ([], w)

/-- `func (t *TanhActivation) Compile(x *g.Node, opts ...LayerOpt) {}`. -/
def TanhActivation.Compile (_x : Node) (_opts : List Opt) (w : World G) : World G := w

/-- `func (t *TanhActivation) Clone() Activation`. -/
def TanhActivation.Clone (w : World G) : Option (Activation × World G) :=
  some (NewTanh w)

/-- `func (r *ReLUActivation) Fwd(x *g.Node) (*g.Node, error)`. -/
def ReLUActivation.Fwd (g : Gorgonia Node G Err) (x : Node) (w : World G) :
    Option ((Node × Option Err) × World G) :=
  some (callG (g.Rectify x w.graph) w)

/-- `func (r *ReLUActivation) Learnables() (n g.Nodes)`. -/
def ReLUActivation.Learnables (w : World G) : List Node × World G := ([], w)

/-- `func (r *ReLUActivation) Compile(x *g.Node, opts ...LayerOpt) {}`. -/
def ReLUActivation.Compile (_x : Node) (_opts : List Opt) (w : World G) : World G := w

/-- `func (r *ReLUActivation) Clone() Activation`. -/
def ReLUActivation.Clone (w : World G) : Option (Activation × World G) :=
  some (NewReLU w)

/-- `func (r *LeakyReLUActivation) Fwd(x *g.Node) (*g.Node, error)`: reads
`r.alpha`. -/
def LeakyReLUActivation.Fwd (g : Gorgonia Node G Err) (r : Nat) (x : Node) (w : World G) :
    Option ((Node × Option Err) × World G) :=
  match w.heap.leaky[r]? with
  | none => none
  | some o => some (callG (g.LeakyRelu x o.alpha w.graph) w)

/-- `func (r *LeakyReLUActivation) Learnables() (n g.Nodes)`. -/
def LeakyReLUActivation.Learnables (_r : Nat) (w : World G) : List Node × World G := ([], w)

/-- `func (r *LeakyReLUActivation) Compile(x *g.Node, opts ...LayerOpt) {}`. -/
def LeakyReLUActivation.Compile (_r : Nat) (_x : Node) (_opts : List Opt) (w : World G) :
    World G := w

/-- `func (r *LeakyReLUActivation) Clone() Activation`: `NewLeakyReLU(r.alpha)`. -/
def LeakyReLUActivation.Clone (r : Nat) (w : World G) : Option (Activation × World G) :=
  match w.heap.leaky[r]? with
  | none => none
  | some o => some (NewLeakyReLU o.alpha w)

/-- The format string of the diagnostic line of `SoftmaxActivation.Fwd`. -/
def softmaxFormat : String := "running softmax with x shape: %v dims: %v \n"

/-- `func (s *SoftmaxActivation) Fwd(x *g.Node) (*g.Node, error)`: prints the
shape and dims of `x`, then calls `g.SoftMax(x, s.axis...)`. -/
def SoftmaxActivation.Fwd (g : Gorgonia Node G Err) (s : Nat) (x : Node) (w : World G) :
    Option ((Node × Option Err) × World G) :=
  match g.Shape x, g.Dims x with
  | some sh, some d =>
    let w1 : World G := { w with stdout := w.stdout ++ [⟨softmaxFormat, [.shape sh, .int d]⟩] }
    match w1.heap.softmax[s]? with
    | none => none
    | some o => some (callG (g.SoftMax x (w1.heap.readSlice o.axis) w1.graph) w1)
  | _, _ => none

/-- `func (s *SoftmaxActivation) Learnables() (n g.Nodes)`. -/
def SoftmaxActivation.Learnables (_s : Nat) (w : World G) : List Node × World G := ([], w)

/-- `func (s *SoftmaxActivation) Compile(x *g.Node, opts ...LayerOpt) {}`. -/
def SoftmaxActivation.Compile (_s : Nat) (_x : Node) (_opts : List Opt) (w : World G) :
    World G := w

/-- `func (s *SoftmaxActivation) Clone() Activation`: `NewSoftmax(s.axis...)`,
which hands the slice `s.axis` itself to `NewSoftmax`. -/
def SoftmaxActivation.Clone (s : Nat) (w : World G) : Option (Activation × World G) :=
  match w.heap.softmax[s]? with
  | none => none
  | some o => some (NewSoftmax o.axis w)

/-- `func (l *LinearActivation) Fwd(x *g.Node) (*g.Node, error)`:
`return x, nil`. -/
def LinearActivation.Fwd (_g : Gorgonia Node G Err) (x : Node) (w : World G) :
    Option ((Node × Option Err) × World G) :=
  some ((x, none), w)

/-- `func (l *LinearActivation) Learnables() (n g.Nodes)`. -/
def LinearActivation.Learnables (w : World G) : List Node × World G := ([], w)

/-- `func (l *LinearActivation) Compile(x *g.Node, opts ...LayerOpt) {}`. -/
def LinearActivation.Compile (_x : Node) (_opts : List Opt) (w : World G) : World G := w

/-- `func (l *LinearActivation) Clone() Activation`. -/
def LinearActivation.Clone (w : World G) : Option (Activation × World G) :=
  some (NewLinear w)

/-! ## Dynamic dispatch on the interface value -/

/-- Method call `a.Fwd(x)`. -/
def Activation.Fwd (g : Gorgonia Node G Err) (a : Activation) (x : Node) (w : World G) :
    Option ((Node × Option Err) × World G) :=
  match a with
  | .sigmoid => SigmoidActivation.Fwd g x w
  | .tanh => TanhActivation.Fwd g x w
  | .relu => ReLUActivation.Fwd g x w
  | .leakyReLU p => LeakyReLUActivation.Fwd g p x w
  | .softmax p => SoftmaxActivation.Fwd g p x w
  | .linear => LinearActivation.Fwd g x w

/-- Method call `a.Learnables()` on the concrete type behind `a`. -/
def Activation.Learnables (a : Activation) (w : World G) : List Node × World G :=
  match a with
  | .sigmoid => SigmoidActivation.Learnables w
  | .tanh => TanhActivation.Learnables w
  | .relu => ReLUActivation.Learnables w
  | .leakyReLU p => LeakyReLUActivation.Learnables p w
  | .softmax p => SoftmaxActivation.Learnables p w
  | .linear => LinearActivation.Learnables w

/-- Method call `a.Compile(x, opts...)` on the concrete type behind `a`. -/
def Activation.Compile (a : Activation) (x : Node) (opts : List Opt) (w : World G) : World G :=
  match a with
  | .sigmoid => SigmoidActivation.Compile x opts w
  | .tanh => TanhActivation.Compile x opts w
  | .relu => ReLUActivation.Compile x opts w
  | .leakyReLU p => LeakyReLUActivation.Compile p x opts w
  | .softmax p => SoftmaxActivation.Compile p x opts w
  | .linear => LinearActivation.Compile x opts w

/-- Method call `a.Clone()`. -/
def Activation.Clone (a : Activation) (w : World G) : Option (Activation × World G) :=
  match a with
  | .sigmoid => SigmoidActivation.Clone w
  | .tanh => TanhActivation.Clone w
  | .relu => ReLUActivation.Clone w
  | .leakyReLU p => LeakyReLUActivation.Clone p w
  | .softmax p => SoftmaxActivation.Clone p w
  | .linear => LinearActivation.Clone w

/-- The Go statement `s.axis[i] = v` on a softmax activation (legal inside the
package); `none` when the pointer is dangling or the index out of range. -/
def assignAxis (a : Activation) (i : Nat) (v : Int) (w : World G) : Option (World G) :=
  match a with
  | .softmax p =>
    match w.heap.softmax[p]? with
    | none => none
    | some o => (w.heap.writeSlice o.axis i v).map fun h => { w with heap := h }
  | _ => none

end Methods

/-! ## A test bench: trivial graph operations -/

/-- Graph operations on `Nat` nodes over a unit graph state, never failing. -/
def benchG : Gorgonia Nat Unit String where
  Sigmoid x _ := ((x + 1, none), ())
  Tanh x _ := ((x + 2, none), ())
  Rectify x _ := ((x + 3, none), ())
  LeakyRelu x _ _ := ((x + 4, none), ())
  SoftMax x _ _ := ((x + 5, none), ())
  Shape _ := some [2, 3]
  Dims _ := some 2

/-! ## The training loop of `main` -/

/-- Outcome of `env.Step` (and of `env.Reset`): observation, reward, done. -/
structure Outcome (Obs Rew : Type) where
  Observation : Obs
  Reward : Rew
  Done : Bool
deriving DecidableEq, Repr

/-- Modelled from the spec: the `deepq.Event` type, not part of the two source
files. The spec gives it as the transition `{state, action, outcome}`. -/
structure Event (Obs Act Rew : Type) where
  State : Obs
  Action : Act
  Outcome : Outcome Obs Rew
deriving DecidableEq, Repr

/-- Modelled from the spec: `deepq.NewEvent(state, action, outcome)`, not part
of the two source files; it builds the transition of its three arguments. -/
def NewEvent {Obs Act Rew : Type} (state : Obs) (action : Act) (outcome : Outcome Obs Rew) :
    Event Obs Act Rew :=
  ⟨state, action, outcome⟩

/-- The calls of `main` that return nothing: logging, the score tracker,
`agent.Wait` and `env.End`. -/
inductive AuxCall (Obs Rew : Type)
  | logInit (init : Outcome Obs Rew)
  | logInitShape (obs : Obs)
  | trackScalar
  | scoreInc (reward : Rew)
  | logSuccess (episode : Nat) (timesteps : Nat)
  | episodeLog
  | wait
  | envEnd
deriving DecidableEq, Repr

/-- The collaborators of the loop, external to the two source files, as
state-passing functions on a world `W`. A function that returns
`(value, error)` in Go returns that pair here. -/
structure Collab (Obs Act Rew Err W : Type) where
  Reset : W → (Outcome Obs Rew × Option Err) × W
  MaxSteps : W → Nat × W
  Action : Obs → W → (Act × Option Err) × W
  Step : Act → W → (Outcome Obs Rew × Option Err) × W
  Remember : Event Obs Act Rew → W → W
  Learn : W → Option Err × W
  Render : W → Option Err × W
  Aux : AuxCall Obs Rew → W → W

/-- One call made by the loop, with what it returned. -/
inductive Call (Obs Act Rew Err : Type)
  | reset (init : Outcome Obs Rew) (err : Option Err)
  | maxSteps (n : Nat)
  | action (state : Obs) (a : Act) (err : Option Err)
  | step (a : Act) (outcome : Outcome Obs Rew) (err : Option Err)
  | remember (e : Event Obs Act Rew)
  | learn (err : Option Err)
  | render (err : Option Err)
  | aux (c : AuxCall Obs Rew)
deriving DecidableEq, Repr

section Loop

variable {Obs Act Rew Err W : Type}

/-- The error a call returned (`none` for nil and for calls without one). -/
def Call.err : Call Obs Act Rew Err → Option Err
  | .reset _ e => e
  | .action _ _ e => e
  | .step _ _ e => e
  | .learn e => e
  | .render e => e
  | _ => none

/-- The events handed to `agent.Remember` in a trace, in order. -/
def recorded (tr : List (Call Obs Act Rew Err)) : List (Event Obs Act Rew) :=
  tr.filterMap fun c => match c with
    | .remember e => some e
    | _ => none

/-- The four calls of a timestep the loop order is about. -/
inductive Kind
  | Action | Step | Remember | Learn
deriving DecidableEq, Repr

/-- The Action / Step / Remember / Learn calls of a trace, in order. -/
def kinds (tr : List (Call Obs Act Rew Err)) : List Kind :=
  tr.filterMap fun c => match c with
    | .action _ _ _ => some Kind.Action
    | .step _ _ _ => some Kind.Step
    | .remember _ => some Kind.Remember
    | .learn _ => some Kind.Learn
    | _ => none

/-- How the body of the timestep loop ends: fall through to the next
iteration with the new `state`, `break`, or the program stopped in
`require.NoError`. -/
inductive Flow (Obs Err : Type)
  | next (state : Obs)
  | brk
  | halt (e : Err)
deriving DecidableEq, Repr

/-- Modelled from the spec: `require.NoError(err)`, not part of the two source
files. It returns when `err` is nil and otherwise stops the program at that
point, the error surfacing to the caller (the spec: errors are not swallowed
and terminate the timestep loop). `onNil` is the rest of the program. -/
def NoError {α : Type} (err : Option Err) (halt : Err → α) (onNil : α) : α :=
  match err with
  | none => onNil
  | some e => halt e

/-- Body of `for _, timestep := range episode.Steps(env.MaxSteps())`, lines
53-74, for episode `epI` and timestep index `tI`. Returns how the body ends,
the world and the calls made. -/
def timestepBody (c : Collab Obs Act Rew Err W) (epI tI : Nat) (state : Obs) (w : W) :
    Flow Obs Err × W × List (Call Obs Act Rew Err) :=
  -- action, err := agent.Action(state); require.NoError(err)
  let ((action, err), w1) := c.Action state w
  let tr1 := [Call.action state action err]
  NoError err (fun e => (.halt e, w1, tr1)) <|
  -- outcome, err := env.Step(action); require.NoError(err)
  let ((outcome, err), w2) := c.Step action w1
  let tr2 := tr1 ++ [.step action outcome err]
  NoError err (fun e => (.halt e, w2, tr2)) <|
  -- score.Inc(outcome.Reward)
  let w3 := c.Aux (.scoreInc outcome.Reward) w2
  let tr3 := tr2 ++ [.aux (.scoreInc outcome.Reward)]
  -- event := deepq.NewEvent(state, action, outcome); agent.Remember(event)
  let event := NewEvent state action outcome
  let w4 := c.Remember event w3
  let tr4 := tr3 ++ [.remember event]
  -- err = agent.Learn(); require.NoError(err)
  let (err, w5) := c.Learn w4
  let tr5 := tr4 ++ [.learn err]
  NoError err (fun e => (.halt e, w5, tr5)) <|
  if outcome.Done then
    -- log.Successf(..., episode.I, timestep.I+1); break
    (.brk, c.Aux (.logSuccess epI (tI + 1)) w5, tr5 ++ [.aux (.logSuccess epI (tI + 1))])
  else
    -- state = outcome.Observation
    let state1 := outcome.Observation
    -- err = agent.Render(env); require.NoError(err)
    let (err, w6) := c.Render w5
    let tr6 := tr5 ++ [.render err]
    NoError err (fun e => (.halt e, w6, tr6)) <|
    (.next state1, w6, tr6)

/-- The timestep loop over the timesteps `ts` still to come. Returns the error
the program stopped with (`none` when the loop ended normally), the world and
the calls made. -/
def timestepLoop (c : Collab Obs Act Rew Err W) (epI : Nat) :
    List Nat → Obs → W → Option Err × W × List (Call Obs Act Rew Err)
  | [], _, w => (none, w, [])
  | tI :: ts, state, w =>
    match timestepBody c epI tI state w with
    | (.next state1, w1, tr) =>
      let (e, w2, tr2) := timestepLoop c epI ts state1 w1
      (e, w2, tr ++ tr2)
    | (.brk, w1, tr) => (none, w1, tr)
    | (.halt e, w1, tr) => (some e, w1, tr)

/-- Modelled from the spec: `episode.Steps(n)`, not part of the two source
files: a finite sequence of `n` timesteps, with `I` = 0, ..., n-1. -/
def Steps (n : Nat) : List Nat := List.range n

/-- Body of `for _, episode := range agent.MakeEpisodes(numEpisodes)`, lines
43-76, for episode `epI`. -/
def episodeBody (c : Collab Obs Act Rew Err W) (epI : Nat) (w : W) :
    Option Err × W × List (Call Obs Act Rew Err) :=
  -- init, err := env.Reset(); require.NoError(err)
  let ((init, err), w1) := c.Reset w
  let tr1 := [Call.reset init err]
  NoError err (fun e => (some e, w1, tr1)) <|
  -- log.Infovb("init", init); log.Infov("init shape", init.Observation.Shape())
  let w2 := c.Aux (.logInitShape init.Observation) (c.Aux (.logInit init) w1)
  let tr2 := tr1 ++ [.aux (.logInit init), .aux (.logInitShape init.Observation)]
  -- state := init.Observation
  let state := init.Observation
  -- score := episode.TrackScalar("score", 0, track.WithAggregator(track.Max))
  let w3 := c.Aux .trackScalar w2
  let tr3 := tr2 ++ [.aux .trackScalar]
  -- for _, timestep := range episode.Steps(env.MaxSteps()) { ... }
  let (n, w4) := c.MaxSteps w3
  let tr4 := tr3 ++ [.maxSteps n]
  match timestepLoop c epI (Steps n) state w4 with
  | (some e, w5, tr5) => (some e, w5, tr4 ++ tr5)
  | (none, w5, tr5) =>
    -- episode.Log()
    (none, c.Aux .episodeLog w5, tr4 ++ tr5 ++ [.aux .episodeLog])

/-- The episode loop over the episodes `eps` still to come. -/
def episodeLoop (c : Collab Obs Act Rew Err W) :
    List Nat → W → Option Err × W × List (Call Obs Act Rew Err)
  | [], w => (none, w, [])
  | epI :: eps, w =>
    match episodeBody c epI w with
    | (some e, w1, tr) => (some e, w1, tr)
    | (none, w1, tr) =>
      let (e, w2, tr2) := episodeLoop c eps w1
      (e, w2, tr ++ tr2)

/-- Modelled from the spec: `agent.MakeEpisodes(n)`, not part of the two
source files: exactly `n` episode handles, with `I` = 0, ..., n-1. -/
def MakeEpisodes (n : Nat) : List Nat := List.range n

/-- `numEpisodes := 200`. -/
def numEpisodes : Nat := 200

/-- The function `main` from line 40 on, started in the world `w` that the
set-up of lines 16-38 leaves: the episode loop, then `agent.Wait()` and
`env.End()`. -/
def main (c : Collab Obs Act Rew Err W) (w : W) :
    Option Err × W × List (Call Obs Act Rew Err) :=
  match episodeLoop c (MakeEpisodes numEpisodes) w with
  | (some e, w1, tr) => (some e, w1, tr)
  | (none, w1, tr) =>
    (none, c.Aux .envEnd (c.Aux .wait w1), tr ++ [.aux .wait, .aux .envEnd])

end Loop

/-! ## A scripted environment -/

/-- A scripted collaborator set on a step counter: `Step` gives reward 1 and
signals done on the `doneAt`-th step of an episode; `Step` fails on the
`failAt`-th step. Observations are the step count. -/
def scripted (maxSteps doneAt failAt : Nat) : Collab Nat Nat Nat String Nat where
  Reset _ := ((⟨0, 0, false⟩, none), 0)
  MaxSteps w := (maxSteps, w)
  Action s w := ((s + 10, none), w)
  Step _ w :=
    if w + 1 = failAt then ((⟨w + 1, 0, false⟩, some "step failed"), w + 1)
    else ((⟨w + 1, 1, decide (w + 1 = doneAt)⟩, none), w + 1)
  Remember _ w := w
  Learn w := (none, w)
  Render w := (none, w)
  Aux _ w := w

/-- The aliasing test `s := NewSoftmax(0, 1); c := s.Clone(); c.axis[0] = 7`,
run after package initialisation. Returns `s`, `c` and the worlds before and
after the assignment. -/
def cloneAliasTest : Option (Activation × Activation × World Unit × World Unit) :=
  let (sl, w1) := variadic [0, 1] (initWorld ())
  let (s, w2) := NewSoftmax sl w1
  match s.Clone w2 with
  | none => none
  | some (c, w3) =>
    match assignAxis c 0 7 w3 with
    | none => none
    | some w4 => some (s, c, w3, w4)

/-! ## The shape of the traces of the loop -/

section Runs

variable {Obs Act Rew Err : Type}

/-- The calls of a timestep up to `agent.Remember`, none of them failing. -/
def block (state : Obs) (a : Act) (o : Outcome Obs Rew) : List (Call Obs Act Rew Err) :=
  [.action state a none, .step a o none, .aux (.scoreInc o.Reward),
   .remember (NewEvent state a o)]

/-- The six ways through the body of the timestep loop, entered with `state`:
how the body ends and the calls it makes. -/
inductive BodyRun (epI tI : Nat) (state : Obs) :
    Flow Obs Err → List (Call Obs Act Rew Err) → Prop
  | actionErr (a : Act) (e : Err) : BodyRun epI tI state (.halt e) [.action state a (some e)]
  | stepErr (a : Act) (o : Outcome Obs Rew) (e : Err) :
      BodyRun epI tI state (.halt e) [.action state a none, .step a o (some e)]
  | learnErr (a : Act) (o : Outcome Obs Rew) (e : Err) :
      BodyRun epI tI state (.halt e) (block state a o ++ [.learn (some e)])
  | done (a : Act) (o : Outcome Obs Rew) (hd : o.Done = true) :
      BodyRun epI tI state .brk
        (block state a o ++ [.learn none, .aux (.logSuccess epI (tI + 1))])
  | renderErr (a : Act) (o : Outcome Obs Rew) (hd : o.Done = false) (e : Err) :
      BodyRun epI tI state (.halt e) (block state a o ++ [.learn none, .render (some e)])
  | next (a : Act) (o : Outcome Obs Rew) (hd : o.Done = false) :
      BodyRun epI tI state (.next o.Observation)
        (block state a o ++ [.learn none, .render none])

/-- The runs of the timestep loop over the timesteps `ts`, entered with
`state`: the error it stops with and the calls it makes. -/
inductive LoopRun (epI : Nat) :
    List Nat → Obs → Option Err → List (Call Obs Act Rew Err) → Prop
  | nil (state : Obs) : LoopRun epI [] state none []
  | brk {tI : Nat} {ts : List Nat} {state : Obs} {tr : List (Call Obs Act Rew Err)}
      (hb : BodyRun epI tI state .brk tr) : LoopRun epI (tI :: ts) state none tr
  | halt {tI : Nat} {ts : List Nat} {state : Obs} {e : Err} {tr : List (Call Obs Act Rew Err)}
      (hb : BodyRun epI tI state (.halt e) tr) : LoopRun epI (tI :: ts) state (some e) tr
  | next {tI : Nat} {ts : List Nat} {state s1 : Obs} {e : Option Err}
      {tr tr2 : List (Call Obs Act Rew Err)}
      (hb : BodyRun epI tI state (.next s1) tr) (hl : LoopRun epI ts s1 e tr2) :
      LoopRun epI (tI :: ts) state e (tr ++ tr2)

/-- The calls of an episode before its timestep loop, none of them failing. -/
def header (init : Outcome Obs Rew) (n : Nat) : List (Call Obs Act Rew Err) :=
  [.reset init none, .aux (.logInit init), .aux (.logInitShape init.Observation),
   .aux .trackScalar, .maxSteps n]

/-- The runs of one episode: the error it stops with and the calls it makes. -/
inductive EpisodeRun (epI : Nat) : Option Err → List (Call Obs Act Rew Err) → Prop
  | resetErr (init : Outcome Obs Rew) (e : Err) : EpisodeRun epI (some e) [.reset init (some e)]
  | halted (init : Outcome Obs Rew) (n : Nat) (e : Err) (tr : List (Call Obs Act Rew Err))
      (hl : LoopRun epI (Steps n) init.Observation (some e) tr) :
      EpisodeRun epI (some e) (header init n ++ tr)
  | finished (init : Outcome Obs Rew) (n : Nat) (tr : List (Call Obs Act Rew Err))
      (hl : LoopRun epI (Steps n) init.Observation none tr) :
      EpisodeRun epI none (header init n ++ tr ++ [.aux .episodeLog])

/-- A trace in which a failing call, if there is one, comes last and is the
error `e` the run stops with. -/
def StopsAtError (e : Option Err) (tr : List (Call Obs Act Rew Err)) : Prop :=
  match e with
  | none => ∀ x ∈ tr, x.err = none
  | some er => ∃ pre x, tr = pre ++ [x] ∧ (∀ y ∈ pre, y.err = none) ∧ x.err = some er

/-- Every `agent.Remember(ev)` of the trace comes right after the
`agent.Action` call on `ev.State` that returned `ev.Action`, the `env.Step`
call on `ev.Action` that returned `ev.Outcome`, and the score update. -/
def Paired (tr : List (Call Obs Act Rew Err)) : Prop :=
  ∀ pre ev post, tr = pre ++ Call.remember ev :: post →
    ∃ pre1, pre = pre1 ++ [.action ev.State ev.Action none, .step ev.Action ev.Outcome none,
      .aux (.scoreInc ev.Outcome.Reward)]

/-- The order of the Action / Step / Remember / Learn calls of `k` complete
timesteps. -/
def orderOf : Nat → List Kind
  | 0 => []
  | k + 1 => [Kind.Action, Kind.Step, Kind.Remember, Kind.Learn] ++ orderOf k

/-- The error a way through the body stops the program with, if any. -/
def Flow.err : Flow Obs Err → Option Err
  | .halt e => some e
  | _ => none

/-- The values `env.MaxSteps()` returned in a trace, in order. -/
def maxStepsCalls (tr : List (Call Obs Act Rew Err)) : List Nat :=
  tr.filterMap fun c => match c with
    | .maxSteps n => some n
    | _ => none

end Runs

/-! ## Traces against the collaborators -/

section Replay

variable {Obs Act Rew Err W : Type}

/-- The call `x`, made in world `w`, is the call of the collaborator that
returns what `x` records and leaves world `w1`. -/
def stepsTo (c : Collab Obs Act Rew Err W) (w : W) (x : Call Obs Act Rew Err) (w1 : W) : Prop :=
  match x with
  | .reset init err => c.Reset w = ((init, err), w1)
  | .maxSteps n => c.MaxSteps w = (n, w1)
  | .action state a err => c.Action state w = ((a, err), w1)
  | .step a outcome err => c.Step a w = ((outcome, err), w1)
  | .remember e => c.Remember e w = w1
  | .learn err => c.Learn w = (err, w1)
  | .render err => c.Render w = (err, w1)
  | .aux k => c.Aux k w = w1

/-- The trace is made from world `w` and leaves world `w1`: its calls are the
collaborators' calls, each made in the world the call before it left and each
returning what the trace records. -/
def Replays (c : Collab Obs Act Rew Err W) : W → List (Call Obs Act Rew Err) → W → Prop
  | w, [], w1 => w1 = w
  | w, x :: xs, w1 => ∃ w0, stepsTo c w x w0 ∧ Replays c w0 xs w1

/-- The value `env.MaxSteps()` returns in the episode entered in world `w`:
it is called after `env.Reset()`, the two log calls and `episode.TrackScalar`. -/
def maxStepsOf (c : Collab Obs Act Rew Err W) (w : W) : Nat :=
  (c.MaxSteps (c.Aux .trackScalar
    (c.Aux (.logInitShape (c.Reset w).1.1.Observation)
      (c.Aux (.logInit (c.Reset w).1.1) (c.Reset w).2)))).1

end Replay

/-- A scripted collaborator set whose world is the step counter of the
environment and the experience store of the agent: `Step` gives reward 1 and
signals done on the `doneAt`-th step, `Remember` appends to the store. -/
def scriptedStore (maxSteps doneAt : Nat) :
    Collab Nat Nat Nat String (Nat × List (Event Nat Nat Nat)) where
  Reset w := ((⟨0, 0, false⟩, none), (0, w.2))
  MaxSteps w := (maxSteps, w)
  Action s w := ((s + 10, none), w)
  Step _ w := ((⟨w.1 + 1, 1, decide (w.1 + 1 = doneAt)⟩, none), (w.1 + 1, w.2))
  Remember ev w := (w.1, w.2 ++ [ev])
  Learn w := (none, w)
  Render w := (none, w)
  Aux _ w := w

/-! ## Activation layers: lemmas -/

section ActivationLemmas

variable {Node G Err Opt : Type}

theorem getElem?_append_length {α : Type} (l : List α) (x : α) :
    (l ++ [x])[l.length]? = some x := by
  simp

/-- Allocating structs leaves the parameters of every live activation as they
were. -/
theorem params_of_extend (h h' : Heap) (a : Activation) (l1 : List LeakyReLUActivation)
    (l2 : List SoftmaxActivation) (harr : h'.arrays = h.arrays)
    (hl : h'.leaky = h.leaky ++ l1) (hs : h'.softmax = h.softmax ++ l2)
    (hv : a.params h ≠ none) : a.params h' = a.params h := by
  cases a with
  | leakyReLU p =>
    simp only [Activation.params, ne_eq, Option.map_eq_none'] at hv ⊢
    have hp : p < h.leaky.length := by
      by_contra hc
      exact hv (List.getElem?_eq_none (by omega))
    rw [hl, List.getElem?_append_left hp]
  | softmax p =>
    simp only [Activation.params, ne_eq, Option.map_eq_none'] at hv ⊢
    have hp : p < h.softmax.length := by
      by_contra hc
      exact hv (List.getElem?_eq_none (by omega))
    rw [hs, List.getElem?_append_left hp]
    simp [Heap.readSlice, harr]
  | sigmoid => rfl
  | tanh => rfl
  | relu => rfl
  | linear => rfl

/-- A successful `Clone` only allocates: arrays are untouched, the struct
lists grow at the end, graph and output are untouched. -/
theorem Clone_extends (a c : Activation) (w w' : World G) (h : a.Clone w = some (c, w')) :
    w'.heap.arrays = w.heap.arrays ∧
    (∃ l1, w'.heap.leaky = w.heap.leaky ++ l1) ∧
    (∃ l2, w'.heap.softmax = w.heap.softmax ++ l2) ∧
    a.params w.heap ≠ none := by
  cases a with
  | leakyReLU p =>
    simp only [Activation.Clone, LeakyReLUActivation.Clone] at h
    cases ho : w.heap.leaky[p]? with
    | none => simp [ho] at h
    | some o =>
      simp only [ho, NewLeakyReLU, Option.some.injEq, Prod.mk.injEq] at h
      obtain ⟨-, rfl⟩ := h
      exact ⟨rfl, ⟨_, rfl⟩, ⟨[], by simp⟩, by simp [Activation.params, ho]⟩
  | softmax p =>
    simp only [Activation.Clone, SoftmaxActivation.Clone] at h
    cases ho : w.heap.softmax[p]? with
    | none => simp [ho] at h
    | some o =>
      simp only [ho, NewSoftmax, Option.some.injEq, Prod.mk.injEq] at h
      obtain ⟨-, rfl⟩ := h
      exact ⟨rfl, ⟨[], by simp⟩, ⟨_, rfl⟩, by simp [Activation.params, ho]⟩
  | sigmoid =>
    simp only [Activation.Clone, SigmoidActivation.Clone, NewSigmoid, Option.some.injEq,
      Prod.mk.injEq] at h
    obtain ⟨-, rfl⟩ := h
    exact ⟨rfl, ⟨[], by simp⟩, ⟨[], by simp⟩, by simp [Activation.params]⟩
  | tanh =>
    simp only [Activation.Clone, TanhActivation.Clone, NewTanh, Option.some.injEq,
      Prod.mk.injEq] at h
    obtain ⟨-, rfl⟩ := h
    exact ⟨rfl, ⟨[], by simp⟩, ⟨[], by simp⟩, by simp [Activation.params]⟩
  | relu =>
    simp only [Activation.Clone, ReLUActivation.Clone, NewReLU, Option.some.injEq,
      Prod.mk.injEq] at h
    obtain ⟨-, rfl⟩ := h
    exact ⟨rfl, ⟨[], by simp⟩, ⟨[], by simp⟩, by simp [Activation.params]⟩
  | linear =>
    simp only [Activation.Clone, LinearActivation.Clone, NewLinear, Option.some.injEq,
      Prod.mk.injEq] at h
    obtain ⟨-, rfl⟩ := h
    exact ⟨rfl, ⟨[], by simp⟩, ⟨[], by simp⟩, by simp [Activation.params]⟩

/-- A successful `Fwd` leaves the heap as it was. -/
theorem Fwd_heap (g : Gorgonia Node G Err) (a : Activation) (x : Node) (w w' : World G)
    (r : Node × Option Err) (h : a.Fwd g x w = some (r, w')) : w'.heap = w.heap := by
  cases a with
  | leakyReLU p =>
    simp only [Activation.Fwd, LeakyReLUActivation.Fwd] at h
    cases ho : w.heap.leaky[p]? with
    | none => simp [ho] at h
    | some o =>
      simp only [ho, callG, Option.some.injEq, Prod.mk.injEq] at h
      obtain ⟨-, rfl⟩ := h
      rfl
  | softmax p =>
    simp only [Activation.Fwd, SoftmaxActivation.Fwd] at h
    cases hs : g.Shape x with
    | none => simp [hs] at h
    | some sh =>
      cases hd : g.Dims x with
      | none => simp [hs, hd] at h
      | some d =>
        cases ho : w.heap.softmax[p]? with
        | none => simp [hs, hd, ho] at h
        | some o =>
          simp only [hs, hd, ho, callG, Option.some.injEq, Prod.mk.injEq] at h
          obtain ⟨-, rfl⟩ := h
          rfl
  | sigmoid =>
    simp only [Activation.Fwd, SigmoidActivation.Fwd, callG, Option.some.injEq,
      Prod.mk.injEq] at h
    obtain ⟨-, rfl⟩ := h
    rfl
  | tanh =>
    simp only [Activation.Fwd, TanhActivation.Fwd, callG, Option.some.injEq,
      Prod.mk.injEq] at h
    obtain ⟨-, rfl⟩ := h
    rfl
  | relu =>
    simp only [Activation.Fwd, ReLUActivation.Fwd, callG, Option.some.injEq,
      Prod.mk.injEq] at h
    obtain ⟨-, rfl⟩ := h
    rfl
  | linear =>
    simp only [Activation.Fwd, LinearActivation.Fwd, Option.some.injEq, Prod.mk.injEq] at h
    obtain ⟨-, rfl⟩ := h
    rfl

/-- What a slice made by `variadic` shows. -/
theorem readSlice_variadic (xs : List Int) (w : World G) :
    (variadic xs w).2.heap.readSlice (variadic xs w).1 = xs := by
  unfold variadic
  split
  · next h => subst h; simp [Heap.readSlice, Slice.nil]
  · simp [Heap.readSlice, List.getD_eq_getElem?_getD]

end ActivationLemmas

/-! ## Activation layers: the claims -/

section ActivationClaims

variable {Node G Err Opt : Type}

/-- C1: for every live activation `a` of any variant, `a.Clone()` returns an
activation of the same variant whose parameters (none, alpha, or the axis
elements in order) equal those of `a`. -/
theorem Clone_preserves_variant_and_params (a : Activation) (w : World G)
    (hv : a.params w.heap ≠ none) :
    ∃ c w', a.Clone w = some (c, w') ∧ c.variant = a.variant ∧
      c.params w'.heap = a.params w.heap := by
  cases a with
  | leakyReLU p =>
    simp only [Activation.params, ne_eq, Option.map_eq_none'] at hv
    obtain ⟨o, ho⟩ := Option.ne_none_iff_exists'.mp hv
    refine ⟨(NewLeakyReLU o.alpha w).1, (NewLeakyReLU o.alpha w).2, ?_, rfl, ?_⟩
    · simp only [Activation.Clone, LeakyReLUActivation.Clone, ho]
    · simp [NewLeakyReLU, Activation.params, ho]
  | softmax p =>
    simp only [Activation.params, ne_eq, Option.map_eq_none'] at hv
    obtain ⟨o, ho⟩ := Option.ne_none_iff_exists'.mp hv
    refine ⟨(NewSoftmax o.axis w).1, (NewSoftmax o.axis w).2, ?_, rfl, ?_⟩
    · simp only [Activation.Clone, SoftmaxActivation.Clone, ho]
    · simp [NewSoftmax, Activation.params, ho, Heap.readSlice]
  | sigmoid => exact ⟨_, _, rfl, rfl, rfl⟩
  | tanh => exact ⟨_, _, rfl, rfl, rfl⟩
  | relu => exact ⟨_, _, rfl, rfl, rfl⟩
  | linear => exact ⟨_, _, rfl, rfl, rfl⟩

/-- C1, at concrete inputs: the default softmax (empty axis-set) and its clone
after package initialisation. -/
theorem Clone_preserves_variant_and_params_witness :
    SoftMax.params (initWorld ()).heap = some (.axes []) ∧
    ∃ c w', SoftMax.Clone (initWorld ()) = some (c, w') ∧ c.variant = SoftMax.variant ∧
      c.params w'.heap = SoftMax.params (initWorld ()).heap :=
  ⟨by decide, Clone_preserves_variant_and_params SoftMax (initWorld ()) (by decide)⟩

/-- C2, the code at the failing input: after `s := NewSoftmax(0, 1)`,
`c := s.Clone()` and `c.axis[0] = 7`, the clone `c` is another struct than
`s`, yet the axis-set held by the source `s` has changed from `[0, 1]` to
`[7, 1]`. -/
theorem Clone_softmax_shares_axis_storage :
    cloneAliasTest.map (fun r => (r.1, r.2.1, r.1.params r.2.2.1.heap, r.1.params r.2.2.2.heap))
      = some (.softmax 1, .softmax 2, some (.axes [0, 1]), some (.axes [7, 1])) := by
  decide

/-- C3: for every activation, `Learnables()` returns the empty collection and
changes nothing, and so it does for every clone of the activation. -/
theorem Learnables_empty (a : Activation) (w : World G) :
    (a.Learnables w : List Node × World G) = ([], w) ∧
    ∀ c w', a.Clone w = some (c, w') →
      (c.Learnables w' : List Node × World G) = ([], w') := by
  have key : ∀ (b : Activation) (v : World G),
      (b.Learnables v : List Node × World G) = ([], v) := by
    intro b v
    cases b <;> rfl
  exact ⟨key a w, fun c w' _ => key c w'⟩

/-- C4: `LinearActivation.Fwd(x)` returns exactly `x` with a nil error, for
every input node, and has no effect. -/
theorem Linear_Fwd_identity (g : Gorgonia Node G Err) (x : Node) (w : World G) :
    LinearActivation.Fwd g x w = some ((x, none), w) ∧
    Linear.Fwd g x w = some ((x, none), w) :=
  ⟨rfl, rfl⟩

/-- C6, the code on every forward call: a `SoftmaxActivation.Fwd` that
returns has appended one diagnostic line, built from the shape and dims of
the input, to standard output. -/
theorem Softmax_Fwd_prints (g : Gorgonia Node G Err) (p : Nat) (x : Node) (w w' : World G)
    (r : Node × Option Err) (h : Activation.Fwd g (.softmax p) x w = some (r, w')) :
    ∃ sh d, g.Shape x = some sh ∧ g.Dims x = some d ∧
      w'.stdout = w.stdout ++ [⟨softmaxFormat, [.shape sh, .int d]⟩] ∧
      w'.stdout ≠ w.stdout := by
  simp only [Activation.Fwd, SoftmaxActivation.Fwd] at h
  cases hs : g.Shape x with
  | none => simp [hs] at h
  | some sh =>
    cases hd : g.Dims x with
    | none => simp [hs, hd] at h
    | some d =>
      cases ho : w.heap.softmax[p]? with
      | none => simp [hs, hd, ho] at h
      | some o =>
        simp only [hs, hd, ho, callG, Option.some.injEq, Prod.mk.injEq] at h
        obtain ⟨-, rfl⟩ := h
        refine ⟨sh, d, rfl, rfl, rfl, ?_⟩
        intro hc
        have := congrArg List.length hc
        simp at this

/-- C6, at a concrete input: a forward call of the default softmax right after
package initialisation prints one line. -/
theorem Softmax_Fwd_prints_witness :
    Activation.Fwd benchG (.softmax 0) 1 (initWorld ()) =
      some ((6, none), { heap := initHeap, graph := (),
                         stdout := [⟨softmaxFormat, [.shape [2, 3], .int 2]⟩] }) ∧
    ∃ sh d, benchG.Shape 1 = some sh ∧ benchG.Dims 1 = some d ∧
      ({ heap := initHeap, graph := (),
         stdout := [⟨softmaxFormat, [.shape [2, 3], .int 2]⟩] } : World Unit).stdout
        = (initWorld ()).stdout ++ [⟨softmaxFormat, [.shape sh, .int d]⟩] ∧
      ({ heap := initHeap, graph := (),
         stdout := [⟨softmaxFormat, [.shape [2, 3], .int 2]⟩] } : World Unit).stdout
        ≠ (initWorld ()).stdout :=
  ⟨rfl, Softmax_Fwd_prints benchG 0 1 (initWorld ()) _ (6, none) rfl⟩

set_option exponentiation.threshold 2048 in
/-- C7: parameters are fixed at construction. `NewLeakyReLU(alpha)` holds
`alpha`, the default `LeakyReLU` holds the float64 nearest to 0.01,
`NewSoftmax` holds the axes it is given (as a slice or as arguments), and
`Fwd`, `Learnables`, `Compile` and `Clone` leave the parameters of the
activation as they were; `Compile` changes nothing at all. -/
theorem params_fixed_at_construction (g : Gorgonia Node G Err) (a : Activation)
    (w : World G) (x : Node) (opts : List Opt) (alpha : Float64) (xs : List Int) (sl : Slice) :
    (NewLeakyReLU alpha w).1.params (NewLeakyReLU alpha w).2.heap = some (.alpha alpha) ∧
    (LeakyReLU.params initHeap = some (.alpha Float64.c0_01) ∧
      Float64.c0_01.toRat = some (5764607523034235 / 2 ^ 59) ∧
      |(5764607523034235 / 2 ^ 59 : ℚ) - 1 / 100| ≤ 1 / 2 ^ 60) ∧
    (NewSoftmax sl w).1.params (NewSoftmax sl w).2.heap = some (.axes (w.heap.readSlice sl)) ∧
    (NewSoftmax (variadic xs w).1 (variadic xs w).2).1.params
      (NewSoftmax (variadic xs w).1 (variadic xs w).2).2.heap = some (.axes xs) ∧
    (∀ r w', a.Fwd g x w = some (r, w') → a.params w'.heap = a.params w.heap) ∧
    ((a.Learnables w : List Node × World G).2 = w) ∧
    (a.Compile x opts w = w) ∧
    (∀ c w', a.Clone w = some (c, w') → a.params w'.heap = a.params w.heap) := by
  refine ⟨?_, ⟨?_, ?_, ?_⟩, ?_, ?_, ?_, ?_, ?_, ?_⟩
  · simp [NewLeakyReLU, Activation.params]
  · decide
  · simp only [Float64.toRat, Float64.c0_01]
    norm_num
  · rw [abs_le]
    constructor <;> norm_num
  · simp [NewSoftmax, Activation.params, Heap.readSlice]
  · have h := readSlice_variadic xs w
    simp only [NewSoftmax, Activation.params, getElem?_append_length, Option.map_some']
    simpa [Heap.readSlice] using h
  · intro r w' h
    rw [Fwd_heap g a x w w' r h]
  · cases a <;> rfl
  · cases a <;> rfl
  · intro c w' h
    obtain ⟨harr, ⟨l1, hl⟩, ⟨l2, hs⟩, hv⟩ := Clone_extends a c w w' h
    exact params_of_extend w.heap w'.heap a l1 l2 harr hl hs hv

end ActivationClaims

/-! ## The training loop: lemmas -/

section LoopLemmas

variable {Obs Act Rew Err W : Type}

/-- The body of the timestep loop takes one of the six ways. -/
theorem timestepBody_run (c : Collab Obs Act Rew Err W) (epI tI : Nat) (state : Obs) (w : W) :
    BodyRun epI tI state (timestepBody c epI tI state w).1 (timestepBody c epI tI state w).2.2 := by
  rcases hA : c.Action state w with ⟨⟨a, ea⟩, w1⟩
  cases ea with
  | some e =>
    simp only [timestepBody, hA, NoError]
    exact BodyRun.actionErr a e
  | none =>
    rcases hS : c.Step a w1 with ⟨⟨o, eo⟩, w2⟩
    cases eo with
    | some e =>
      simp only [timestepBody, hA, hS, NoError]
      exact BodyRun.stepErr a o e
    | none =>
      rcases hL : c.Learn (c.Remember (NewEvent state a o) (c.Aux (.scoreInc o.Reward) w2))
        with ⟨el, w5⟩
      cases el with
      | some e =>
        simp only [timestepBody, hA, hS, hL, NoError]
        exact BodyRun.learnErr a o e
      | none =>
        cases hd : o.Done with
        | true =>
          simp only [timestepBody, hA, hS, hL, NoError, hd, if_true]
          exact BodyRun.done a o hd
        | false =>
          rcases hR : c.Render w5 with ⟨er, w6⟩
          cases er with
          | some e =>
            simp only [timestepBody, hA, hS, hL, hR, NoError, hd, Bool.false_eq_true, if_false]
            exact BodyRun.renderErr a o hd e
          | none =>
            simp only [timestepBody, hA, hS, hL, hR, NoError, hd, Bool.false_eq_true, if_false]
            exact BodyRun.next a o hd

/-- The timestep loop makes a run of the loop. -/
theorem timestepLoop_run (c : Collab Obs Act Rew Err W) (epI : Nat) (ts : List Nat) :
    ∀ (state : Obs) (w : W),
      LoopRun epI ts state (timestepLoop c epI ts state w).1 (timestepLoop c epI ts state w).2.2 := by
  induction ts with
  | nil => intro state w; exact LoopRun.nil state
  | cons tI ts ih =>
    intro state w
    have hb := timestepBody_run c epI tI state w
    unfold timestepLoop
    rcases hB : timestepBody c epI tI state w with ⟨f, w1, tr⟩
    rw [hB] at hb
    cases f with
    | next s1 => exact LoopRun.next hb (ih s1 w1)
    | brk => exact LoopRun.brk hb
    | halt e => exact LoopRun.halt hb

/-- An episode makes a run of an episode, starting with the call of
`env.Reset`. -/
theorem episodeBody_run (c : Collab Obs Act Rew Err W) (epI : Nat) (w : W) :
    EpisodeRun epI (episodeBody c epI w).1 (episodeBody c epI w).2.2 ∧
    (episodeBody c epI w).2.2.head? = some (.reset (c.Reset w).1.1 (c.Reset w).1.2) := by
  rcases hR : c.Reset w with ⟨⟨init, ei⟩, w1⟩
  cases ei with
  | some e =>
    simp only [episodeBody, hR, NoError]
    exact ⟨EpisodeRun.resetErr init e, rfl⟩
  | none =>
    rcases hM : c.MaxSteps (c.Aux .trackScalar (c.Aux (.logInitShape init.Observation)
      (c.Aux (.logInit init) w1))) with ⟨n, w4⟩
    have hl := timestepLoop_run c epI (Steps n) init.Observation w4
    rcases hT : timestepLoop c epI (Steps n) init.Observation w4 with ⟨e, w5, tr5⟩
    rw [hT] at hl
    cases e with
    | some e =>
      simp only [episodeBody, hR, hM, hT, NoError]
      exact ⟨EpisodeRun.halted init n e tr5 hl, rfl⟩
    | none =>
      simp only [episodeBody, hR, hM, hT, NoError]
      exact ⟨EpisodeRun.finished init n tr5 hl, rfl⟩

theorem recorded_append (a b : List (Call Obs Act Rew Err)) :
    recorded (a ++ b) = recorded a ++ recorded b := by
  simp [recorded, List.filterMap_append]

theorem kinds_append (a b : List (Call Obs Act Rew Err)) :
    kinds (a ++ b) = kinds a ++ kinds b := by
  simp [kinds, List.filterMap_append]

theorem maxStepsCalls_append (a b : List (Call Obs Act Rew Err)) :
    maxStepsCalls (a ++ b) = maxStepsCalls a ++ maxStepsCalls b := by
  simp [maxStepsCalls, List.filterMap_append]

theorem count_Step_orderOf (k : Nat) : (orderOf k).count Kind.Step = k := by
  induction k with
  | zero => rfl
  | succ k ih =>
    simp only [orderOf, List.count_append, ih]
    have : List.count Kind.Step [Kind.Action, Kind.Step, Kind.Remember, Kind.Learn] = 1 := by
      decide
    omega

/-- What a way through the body that does not stop the program records. -/
theorem bodyRun_facts {epI tI : Nat} {state : Obs} {f : Flow Obs Err}
    {tr : List (Call Obs Act Rew Err)} (h : BodyRun epI tI state f tr) :
    maxStepsCalls tr = [] ∧
    (f.err = none → ∃ a o, recorded tr = [NewEvent state a o] ∧ kinds tr = orderOf 1 ∧
      (f = .brk → o.Done = true) ∧ (∀ s1, f = .next s1 → o.Done = false)) := by
  cases h with
  | actionErr a e => exact ⟨rfl, fun h => by simp [Flow.err] at h⟩
  | stepErr a o e => exact ⟨rfl, fun h => by simp [Flow.err] at h⟩
  | learnErr a o e => exact ⟨rfl, fun h => by simp [Flow.err] at h⟩
  | renderErr a o hd e => exact ⟨rfl, fun h => by simp [Flow.err] at h⟩
  | done a o hd =>
    exact ⟨rfl, fun _ => ⟨a, o, rfl, rfl, fun _ => hd, fun s1 h => by cases h⟩⟩
  | next a o hd =>
    exact ⟨rfl, fun _ => ⟨a, o, rfl, rfl, (fun h => by cases h), fun _ _ => hd⟩⟩

/-- A run of the timestep loop that ends without error: the order of its
calls, and where it stops. -/
theorem loopRun_counts {epI : Nat} {ts : List Nat} {state : Obs} {e : Option Err}
    {tr : List (Call Obs Act Rew Err)} (h : LoopRun epI ts state e tr) :
    maxStepsCalls tr = [] ∧
    (e = none →
      kinds tr = orderOf (recorded tr).length ∧
      (recorded tr).length ≤ ts.length ∧
      (∀ k ev, (recorded tr)[k]? = some ev → ev.Outcome.Done = true →
        (recorded tr).length = k + 1) ∧
      ((∀ ev ∈ recorded tr, ev.Outcome.Done = false) → (recorded tr).length = ts.length)) := by
  induction h with
  | nil state =>
    refine ⟨rfl, fun _ => ⟨rfl, Nat.le_refl _, ?_, fun _ => rfl⟩⟩
    intro k ev hk
    simp [recorded] at hk
  | @brk tI ts state tr hb =>
    refine ⟨(bodyRun_facts hb).1, fun _ => ?_⟩
    obtain ⟨a, o, hr, hk, hd, -⟩ := (bodyRun_facts hb).2 rfl
    rw [hr, hk]
    refine ⟨rfl, by simp, ?_, ?_⟩
    · intro k ev hk _
      cases k with
      | zero => rfl
      | succ k => simp at hk
    · intro hall
      have := hall (NewEvent state a o) (by simp)
      rw [show (NewEvent state a o).Outcome = o from rfl, hd rfl] at this
      cases this
  | halt hb => exact ⟨(bodyRun_facts hb).1, fun h => by cases h⟩
  | @next tI ts state s1 e tr tr2 hb hl ih =>
    refine ⟨by rw [maxStepsCalls_append, (bodyRun_facts hb).1, ih.1]; rfl, fun he => ?_⟩
    obtain ⟨a, o, hr, hk, -, hd⟩ := (bodyRun_facts hb).2 rfl
    obtain ⟨i1, i2, i3, i4⟩ := ih.2 he
    rw [recorded_append, kinds_append, hr, hk, i1]
    refine ⟨rfl, by simp; omega, ?_, ?_⟩
    · intro k ev hk hdone
      cases k with
      | zero =>
        simp only [List.singleton_append, List.getElem?_cons_zero, Option.some.injEq] at hk
        subst hk
        rw [show (NewEvent state a o).Outcome = o from rfl, hd s1 rfl] at hdone
        cases hdone
      | succ k =>
        simp only [List.singleton_append, List.getElem?_cons_succ] at hk
        simp only [List.singleton_append, List.length_cons]
        rw [i3 k ev hk hdone]
    · intro hall
      simp only [List.singleton_append, List.length_cons]
      rw [i4 (fun ev hev => hall ev (by simp [hev]))]

/-! ### A failing call ends the trace -/

theorem stopsAtError_append {a b : List (Call Obs Act Rew Err)} {e : Option Err}
    (ha : StopsAtError none a) (hb : StopsAtError e b) : StopsAtError e (a ++ b) := by
  cases e with
  | none =>
    intro x hx
    rcases List.mem_append.mp hx with h | h
    · exact ha x h
    · exact hb x h
  | some er =>
    obtain ⟨pre, x, rfl, hpre, hx⟩ := hb
    refine ⟨a ++ pre, x, by simp, ?_, hx⟩
    intro y hy
    rcases List.mem_append.mp hy with h | h
    · exact ha y h
    · exact hpre y h

/-- With a failing call last, any failing call of the trace is that last one. -/
theorem stopsAtError_last {e : Option Err} {tr : List (Call Obs Act Rew Err)}
    (h : StopsAtError e tr) (pre : List (Call Obs Act Rew Err)) (x : Call Obs Act Rew Err)
    (post : List (Call Obs Act Rew Err)) (htr : tr = pre ++ x :: post) (hx : x.err ≠ none) :
    post = [] ∧ e = x.err := by
  cases e with
  | none =>
    exact absurd (h x (by rw [htr]; simp)) hx
  | some er =>
    obtain ⟨pre0, x0, h0, hpre0, hx0⟩ := h
    rw [h0] at htr
    rcases List.append_eq_append_iff.mp htr with ⟨a1, h1, h2⟩ | ⟨c1, h1, h2⟩
    · -- `pre = pre0 ++ a1`, `[x0] = a1 ++ x :: post`
      cases a1 with
      | nil =>
        simp only [List.nil_append, List.cons.injEq] at h2
        obtain ⟨rfl, rfl⟩ := h2
        exact ⟨rfl, hx0.symm⟩
      | cons y a2 =>
        simp only [List.cons_append, List.cons.injEq] at h2
        have := congrArg List.length h2.2
        simp at this
        omega
    · -- `pre0 = pre ++ c1`, `x :: post = c1 ++ [x0]`
      cases c1 with
      | nil =>
        simp only [List.nil_append, List.cons.injEq] at h2
        obtain ⟨rfl, rfl⟩ := h2
        exact ⟨rfl, hx0.symm⟩
      | cons y c2 =>
        simp only [List.cons_append, List.cons.injEq] at h2
        obtain ⟨rfl, -⟩ := h2
        exact absurd (hpre0 x (by rw [h1]; simp)) hx

theorem bodyRun_stops {epI tI : Nat} {state : Obs} {f : Flow Obs Err}
    {tr : List (Call Obs Act Rew Err)} (h : BodyRun epI tI state f tr) :
    StopsAtError f.err tr := by
  cases h with
  | actionErr a e => exact ⟨[], _, rfl, by simp, rfl⟩
  | stepErr a o e => exact ⟨[.action state a none], _, rfl, by simp [Call.err], rfl⟩
  | learnErr a o e => exact ⟨block state a o, _, rfl, by simp [block, Call.err], rfl⟩
  | renderErr a o hd e =>
    exact ⟨block state a o ++ [.learn none], .render (some e), by simp,
      by simp [block, Call.err], rfl⟩
  | done a o hd =>
    intro x hx
    simp only [block, List.cons_append, List.nil_append, List.mem_cons, List.mem_singleton,
      List.not_mem_nil, or_false] at hx
    rcases hx with rfl | rfl | rfl | rfl | rfl | rfl <;> rfl
  | next a o hd =>
    intro x hx
    simp only [block, List.cons_append, List.nil_append, List.mem_cons, List.mem_singleton,
      List.not_mem_nil, or_false] at hx
    rcases hx with rfl | rfl | rfl | rfl | rfl | rfl <;> rfl

theorem loopRun_stops {epI : Nat} {ts : List Nat} {state : Obs} {e : Option Err}
    {tr : List (Call Obs Act Rew Err)} (h : LoopRun epI ts state e tr) :
    StopsAtError e tr := by
  induction h with
  | nil state => intro x hx; simp at hx
  | brk hb => exact (bodyRun_stops hb)
  | halt hb => exact (bodyRun_stops hb)
  | next hb _ ih => exact stopsAtError_append (bodyRun_stops hb) ih

theorem header_stops (init : Outcome Obs Rew) (n : Nat) :
    StopsAtError none (header init n : List (Call Obs Act Rew Err)) := by
  intro x hx
  simp only [header, List.mem_cons, List.mem_singleton, List.not_mem_nil, or_false] at hx
  rcases hx with rfl | rfl | rfl | rfl | rfl <;> rfl

theorem episodeRun_stops {epI : Nat} {e : Option Err} {tr : List (Call Obs Act Rew Err)}
    (h : EpisodeRun epI e tr) : StopsAtError e tr := by
  cases h with
  | resetErr init e => exact ⟨[], _, rfl, by simp, rfl⟩
  | halted init n e tr hl => exact stopsAtError_append (header_stops init n) (loopRun_stops hl)
  | finished init n tr hl =>
    refine stopsAtError_append (stopsAtError_append (header_stops init n) (loopRun_stops hl)) ?_
    intro x hx
    simp only [List.mem_singleton] at hx
    subst hx
    rfl

theorem episodeLoop_stops (c : Collab Obs Act Rew Err W) (eps : List Nat) :
    ∀ w : W, StopsAtError (episodeLoop c eps w).1 (episodeLoop c eps w).2.2 := by
  induction eps with
  | nil => intro w x hx; simp [episodeLoop] at hx
  | cons epI eps ih =>
    intro w
    have hb := episodeRun_stops (episodeBody_run c epI w).1
    rcases hB : episodeBody c epI w with ⟨e, w1, tr⟩
    rw [hB] at hb
    cases e with
    | some e =>
      simp only [episodeLoop, hB]
      exact hb
    | none =>
      simp only [episodeLoop, hB]
      exact stopsAtError_append hb (ih w1)

theorem main_stops (c : Collab Obs Act Rew Err W) (w : W) :
    StopsAtError (main c w).1 (main c w).2.2 := by
  have hl := episodeLoop_stops c (MakeEpisodes numEpisodes) w
  rcases hL : episodeLoop c (MakeEpisodes numEpisodes) w with ⟨e, w1, tr⟩
  rw [hL] at hl
  cases e with
  | some e =>
    simp only [main, hL]
    exact hl
  | none =>
    simp only [main, hL]
    refine stopsAtError_append hl ?_
    intro x hx
    simp only [List.mem_cons, List.mem_singleton, List.not_mem_nil, or_false] at hx
    rcases hx with rfl | rfl <;> rfl

/-! ### The events of an episode -/

theorem recorded_of_mem {tr : List (Call Obs Act Rew Err)} (ev : Event Obs Act Rew)
    (h : Call.remember ev ∈ tr) : recorded tr ≠ [] := by
  intro hc
  have : ev ∈ recorded tr := by
    simp only [recorded, List.mem_filterMap]
    exact ⟨_, h, rfl⟩
  rw [hc] at this
  cases this

theorem paired_of_none {tr : List (Call Obs Act Rew Err)} (h : recorded tr = []) :
    Paired tr := by
  intro pre ev post htr
  exact absurd h (recorded_of_mem ev (by rw [htr]; simp))

theorem paired_append {a b : List (Call Obs Act Rew Err)} (ha : Paired a) (hb : Paired b) :
    Paired (a ++ b) := by
  intro pre ev post htr
  rcases List.append_eq_append_iff.mp htr with ⟨a1, h1, h2⟩ | ⟨c1, h1, h2⟩
  · obtain ⟨pre1, hp⟩ := hb a1 ev post h2
    exact ⟨a ++ pre1, by rw [h1, hp, List.append_assoc]⟩
  · cases c1 with
    | nil =>
      simp only [List.nil_append] at h2
      obtain ⟨pre1, hp⟩ := hb [] ev post h2.symm
      have := congrArg List.length hp
      simp at this
    | cons y c2 =>
      simp only [List.cons_append, List.cons.injEq] at h2
      obtain ⟨rfl, -⟩ := h2
      exact ha pre ev c2 h1

/-- A completed block followed by calls other than Remember is paired. -/
theorem paired_of_block (state : Obs) (a : Act) (o : Outcome Obs Rew)
    (tail : List (Call Obs Act Rew Err)) (ht : recorded tail = []) :
    Paired (block state a o ++ tail) := by
  intro pre ev post htr
  have hsplit : block state a o ++ tail =
      [Call.action state a none, .step a o none, .aux (.scoreInc o.Reward)] ++
        (Call.remember (NewEvent state a o) :: tail) := rfl
  rw [hsplit] at htr
  rcases List.append_eq_append_iff.mp htr with ⟨a1, h1, h2⟩ | ⟨c1, h1, h2⟩
  · cases a1 with
    | nil =>
      simp only [List.nil_append, List.cons.injEq, Call.remember.injEq] at h2
      obtain ⟨rfl, -⟩ := h2
      exact ⟨[], by rw [h1]; rfl⟩
    | cons y a2 =>
      simp only [List.cons_append, List.cons.injEq] at h2
      exact absurd ht (recorded_of_mem ev (by rw [h2.2]; simp))
  · cases c1 with
    | nil =>
      simp only [List.nil_append, List.cons.injEq, Call.remember.injEq] at h2
      obtain ⟨rfl, -⟩ := h2
      simp only [List.append_nil] at h1
      exact ⟨[], by rw [← h1]; rfl⟩
    | cons y c2 =>
      simp only [List.cons_append, List.cons.injEq] at h2
      obtain ⟨rfl, -⟩ := h2
      have hmem : Call.remember ev ∈
          ([Call.action state a none, .step a o none, .aux (.scoreInc o.Reward)] :
            List (Call Obs Act Rew Err)) := by
        rw [h1]; simp
      simp at hmem

theorem bodyRun_paired {epI tI : Nat} {state : Obs} {f : Flow Obs Err}
    {tr : List (Call Obs Act Rew Err)} (h : BodyRun epI tI state f tr) :
    Paired tr ∧
    ((recorded tr = [] ∧ ∀ s1, f ≠ .next s1) ∨
      ∃ a o, recorded tr = [NewEvent state a o] ∧ ∀ s1, f = .next s1 → s1 = o.Observation) := by
  cases h with
  | actionErr a e => exact ⟨paired_of_none rfl, Or.inl ⟨rfl, fun s1 h => by cases h⟩⟩
  | stepErr a o e => exact ⟨paired_of_none rfl, Or.inl ⟨rfl, fun s1 h => by cases h⟩⟩
  | learnErr a o e =>
    exact ⟨paired_of_block state a o _ rfl, Or.inr ⟨a, o, rfl, fun s1 h => by cases h⟩⟩
  | renderErr a o hd e =>
    exact ⟨paired_of_block state a o _ rfl, Or.inr ⟨a, o, rfl, fun s1 h => by cases h⟩⟩
  | done a o hd =>
    exact ⟨paired_of_block state a o _ rfl, Or.inr ⟨a, o, rfl, fun s1 h => by cases h⟩⟩
  | next a o hd =>
    exact ⟨paired_of_block state a o _ rfl, Or.inr ⟨a, o, rfl, fun s1 h => by cases h; rfl⟩⟩

/-- The events of a run of the timestep loop: each paired with its calls, the
first taken in the state the loop is entered with, each later one in the
observation of the one before. -/
theorem loopRun_chain {epI : Nat} {ts : List Nat} {state : Obs} {e : Option Err}
    {tr : List (Call Obs Act Rew Err)} (h : LoopRun epI ts state e tr) :
    Paired tr ∧ (∀ ev, (recorded tr).head? = some ev → ev.State = state) ∧
    (recorded tr).Chain' (fun e1 e2 => e2.State = e1.Outcome.Observation) := by
  have single : ∀ {epI tI : Nat} {state : Obs} {f : Flow Obs Err}
      {tr : List (Call Obs Act Rew Err)}, BodyRun epI tI state f tr →
      (∀ ev, (recorded tr).head? = some ev → ev.State = state) ∧
      (recorded tr).Chain' (fun e1 e2 => e2.State = e1.Outcome.Observation) := by
    intro epI tI state f tr hb
    rcases (bodyRun_paired hb).2 with ⟨hr, -⟩ | ⟨a, o, hr, -⟩
    · rw [hr]; exact ⟨(fun ev h => by cases h), List.chain'_nil⟩
    · rw [hr]
      refine ⟨fun ev h => ?_, List.chain'_singleton _⟩
      simp only [List.head?_cons, Option.some.injEq] at h
      subst h
      rfl
  induction h with
  | nil state => exact ⟨paired_of_none rfl, (fun ev h => by cases h), List.chain'_nil⟩
  | brk hb => exact ⟨(bodyRun_paired hb).1, single hb⟩
  | halt hb => exact ⟨(bodyRun_paired hb).1, single hb⟩
  | @next tI ts state s1 e tr tr2 hb hl ih =>
    obtain ⟨ip, ih1, ih2⟩ := ih
    refine ⟨paired_append (bodyRun_paired hb).1 ip, ?_⟩
    rcases (bodyRun_paired hb).2 with ⟨-, hn⟩ | ⟨a, o, hr, hs⟩
    · exact absurd rfl (hn s1)
    · rw [recorded_append, hr]
      refine ⟨fun ev h => ?_, ?_⟩
      · simp only [List.singleton_append, List.head?_cons, Option.some.injEq] at h
        subst h
        rfl
      · simp only [List.singleton_append]
        rw [List.chain'_cons']
        refine ⟨fun y hy => ?_, ih2⟩
        rw [ih1 y (by simpa using hy), hs s1 rfl]
        rfl

theorem episodeRun_chain {epI : Nat} {e : Option Err} {tr : List (Call Obs Act Rew Err)}
    (h : EpisodeRun epI e tr) :
    Paired tr ∧
    (∀ init ei ev, tr.head? = some (.reset init ei) → (recorded tr).head? = some ev →
      ev.State = init.Observation) ∧
    (recorded tr).Chain' (fun e1 e2 => e2.State = e1.Outcome.Observation) := by
  have hh : ∀ (init : Outcome Obs Rew) (n : Nat),
      recorded (header init n : List (Call Obs Act Rew Err)) = [] := fun _ _ => rfl
  cases h with
  | resetErr init e =>
    exact ⟨paired_of_none rfl, (fun _ _ ev _ h => by cases h), List.chain'_nil⟩
  | halted init n e tr hl =>
    obtain ⟨hp, h1, h2⟩ := loopRun_chain hl
    refine ⟨paired_append (paired_of_none (hh init n)) hp, ?_, ?_⟩
    · intro init1 ei ev hhead hev
      simp only [header, List.cons_append, List.head?_cons, Option.some.injEq,
        Call.reset.injEq] at hhead
      obtain ⟨rfl, -⟩ := hhead
      rw [recorded_append, hh, List.nil_append] at hev
      exact h1 ev hev
    · rw [recorded_append, hh, List.nil_append]
      exact h2
  | finished init n tr hl =>
    obtain ⟨hp, h1, h2⟩ := loopRun_chain hl
    have ht : recorded ([Call.aux AuxCall.episodeLog] : List (Call Obs Act Rew Err)) = [] := rfl
    refine ⟨paired_append (paired_append (paired_of_none (hh init n)) hp) (paired_of_none ht),
      ?_, ?_⟩
    · intro init1 ei ev hhead hev
      simp only [header, List.cons_append, List.head?_cons, Option.some.injEq,
        Call.reset.injEq] at hhead
      obtain ⟨rfl, -⟩ := hhead
      rw [recorded_append, recorded_append, hh, ht, List.nil_append, List.append_nil] at hev
      exact h1 ev hev
    · rw [recorded_append, recorded_append, hh, ht, List.nil_append, List.append_nil]
      exact h2

theorem episodeRun_counts {epI : Nat} {tr : List (Call Obs Act Rew Err)}
    (h : EpisodeRun epI none tr) :
    ∃ n, maxStepsCalls tr = [n] ∧
      kinds tr = orderOf (recorded tr).length ∧
      (recorded tr).length ≤ n ∧
      (∀ k ev, (recorded tr)[k]? = some ev → ev.Outcome.Done = true →
        (recorded tr).length = k + 1) ∧
      ((∀ ev ∈ recorded tr, ev.Outcome.Done = false) → (recorded tr).length = n) := by
  cases h with
  | finished init n tr hl =>
    obtain ⟨hm, hc⟩ := loopRun_counts hl
    obtain ⟨c1, c2, c3, c4⟩ := hc rfl
    have hr : recorded (header init n ++ tr ++ [Call.aux AuxCall.episodeLog]) = recorded tr := by
      rw [recorded_append, recorded_append]
      show [] ++ recorded tr ++ [] = recorded tr
      simp
    have hk : kinds (header init n ++ tr ++ [Call.aux AuxCall.episodeLog]) = kinds tr := by
      rw [kinds_append, kinds_append]
      show [] ++ kinds tr ++ [] = kinds tr
      simp
    have hn : (Steps n).length = n := by simp [Steps]
    refine ⟨n, ?_, ?_, ?_, ?_, ?_⟩
    · rw [maxStepsCalls_append, maxStepsCalls_append, hm]
      rfl
    · rw [hr, hk]; exact c1
    · rw [hr]; exact hn ▸ c2
    · rw [hr]; exact c3
    · rw [hr]; intro hall; rw [c4 hall, hn]

/-! ### The trace is what the collaborators did -/

theorem replays_append (c : Collab Obs Act Rew Err W) (a b : List (Call Obs Act Rew Err)) :
    ∀ (w w1 w2 : W), Replays c w a w1 → Replays c w1 b w2 → Replays c w (a ++ b) w2 := by
  induction a with
  | nil =>
    intro w w1 w2 ha hb
    simp only [Replays] at ha
    subst ha
    exact hb
  | cons x xs ih =>
    intro w w1 w2 ha hb
    obtain ⟨w0, hx, hxs⟩ := ha
    exact ⟨w0, hx, ih w0 w1 w2 hxs hb⟩

/-- The calls of the body of the timestep loop are the collaborators' calls,
threaded through the world, and the body hands back the world they leave. -/
theorem timestepBody_replays (c : Collab Obs Act Rew Err W) (epI tI : Nat) (state : Obs)
    (w : W) :
    Replays c w (timestepBody c epI tI state w).2.2 (timestepBody c epI tI state w).2.1 := by
  rcases hA : c.Action state w with ⟨⟨a, ea⟩, w1⟩
  cases ea with
  | some e =>
    simp only [timestepBody, hA, NoError]
    exact ⟨w1, hA, rfl⟩
  | none =>
    rcases hS : c.Step a w1 with ⟨⟨o, eo⟩, w2⟩
    cases eo with
    | some e =>
      simp only [timestepBody, hA, hS, NoError]
      exact ⟨w1, hA, w2, hS, rfl⟩
    | none =>
      rcases hL : c.Learn (c.Remember (NewEvent state a o) (c.Aux (.scoreInc o.Reward) w2))
        with ⟨el, w5⟩
      cases el with
      | some e =>
        simp only [timestepBody, hA, hS, hL, NoError]
        exact ⟨w1, hA, w2, hS, _, rfl, _, rfl, w5, hL, rfl⟩
      | none =>
        cases hd : o.Done with
        | true =>
          simp only [timestepBody, hA, hS, hL, NoError, hd, if_true]
          exact ⟨w1, hA, w2, hS, _, rfl, _, rfl, w5, hL, _, rfl, rfl⟩
        | false =>
          rcases hR : c.Render w5 with ⟨er, w6⟩
          cases er with
          | some e =>
            simp only [timestepBody, hA, hS, hL, hR, NoError, hd, Bool.false_eq_true, if_false]
            exact ⟨w1, hA, w2, hS, _, rfl, _, rfl, w5, hL, w6, hR, rfl⟩
          | none =>
            simp only [timestepBody, hA, hS, hL, hR, NoError, hd, Bool.false_eq_true, if_false]
            exact ⟨w1, hA, w2, hS, _, rfl, _, rfl, w5, hL, w6, hR, rfl⟩

theorem timestepLoop_replays (c : Collab Obs Act Rew Err W) (epI : Nat) (ts : List Nat) :
    ∀ (state : Obs) (w : W),
      Replays c w (timestepLoop c epI ts state w).2.2 (timestepLoop c epI ts state w).2.1 := by
  induction ts with
  | nil => intro state w; exact rfl
  | cons tI ts ih =>
    intro state w
    have hb := timestepBody_replays c epI tI state w
    rcases hB : timestepBody c epI tI state w with ⟨f, w1, tr⟩
    rw [hB] at hb
    cases f with
    | next s1 =>
      simp only [timestepLoop, hB]
      exact replays_append c _ _ w w1 _ hb (ih s1 w1)
    | brk =>
      simp only [timestepLoop, hB]
      exact hb
    | halt e =>
      simp only [timestepLoop, hB]
      exact hb

/-- The calls of an episode are the collaborators' calls, threaded through the
world, and the episode hands back the world they leave. -/
theorem episodeBody_replays (c : Collab Obs Act Rew Err W) (epI : Nat) (w : W) :
    Replays c w (episodeBody c epI w).2.2 (episodeBody c epI w).2.1 := by
  rcases hR : c.Reset w with ⟨⟨init, ei⟩, w1⟩
  cases ei with
  | some e =>
    simp only [episodeBody, hR, NoError]
    exact ⟨w1, hR, rfl⟩
  | none =>
    rcases hM : c.MaxSteps (c.Aux .trackScalar (c.Aux (.logInitShape init.Observation)
      (c.Aux (.logInit init) w1))) with ⟨n, w4⟩
    have hl := timestepLoop_replays c epI (Steps n) init.Observation w4
    rcases hT : timestepLoop c epI (Steps n) init.Observation w4 with ⟨e, w5, tr5⟩
    rw [hT] at hl
    have hhead : Replays c w
        ([Call.reset init none] ++ [.aux (.logInit init), .aux (.logInitShape init.Observation)]
          ++ [.aux .trackScalar] ++ [.maxSteps n]) w4 :=
      ⟨w1, hR, _, rfl, _, rfl, _, rfl, w4, hM, rfl⟩
    cases e with
    | some e =>
      simp only [episodeBody, hR, hM, hT, NoError]
      exact replays_append c _ _ w w4 w5 hhead hl
    | none =>
      simp only [episodeBody, hR, hM, hT, NoError]
      exact replays_append c _ _ w w5 _ (replays_append c _ _ w w4 w5 hhead hl) ⟨_, rfl, rfl⟩

/-- In an episode that ends without error, the value of `env.MaxSteps()` the
trace records is the one the collaborator returned. -/
theorem episodeRun_maxSteps (c : Collab Obs Act Rew Err W) {epI : Nat} {w w1 : W}
    {tr : List (Call Obs Act Rew Err)} (h : EpisodeRun epI none tr) (hr : Replays c w tr w1)
    (n : Nat) (hn : maxStepsCalls tr = [n]) : n = maxStepsOf c w := by
  cases h with
  | finished init n0 tr hl =>
    have hm := (loopRun_counts hl).1
    rw [maxStepsCalls_append, maxStepsCalls_append, hm] at hn
    have h0 : n0 = n := by
      have : [n0] = [n] := hn
      exact List.singleton_inj.mp this
    simp only [header, List.cons_append, List.nil_append, List.append_assoc, Replays,
      stepsTo] at hr
    obtain ⟨v1, hR, v2, hA1, v3, hA2, v4, hA3, v5, hM, -⟩ := hr
    simp only [maxStepsOf, hR, hA1, hA2, hA3, hM]
    exact h0.symm

end LoopLemmas





/-! ## The training loop: the claims -/

section LoopClaims

variable {Obs Act Rew Err W : Type}

/-- C8: an episode of the training loop in which no call returns an error
(it ends with no error, and then no call of its trace failed). Its calls are
the collaborators' calls, each made in the world the call before left, and
the episode ends in the world they leave. It makes its Action, Step,
Remember, Learn calls in exactly this order, once per recorded event. With
`maxStepsOf c w` the value `env.MaxSteps()` returned, it records at most
that many events; if the `k+1`-th recorded outcome has `done = true` exactly
`k+1` events are recorded and as many Step calls made, and if no outcome has
`done = true` exactly `maxStepsOf c w` are. -/
theorem episode_stops_at_done_or_MaxSteps (c : Collab Obs Act Rew Err W) (epI : Nat) (w : W)
    (h : (episodeBody c epI w).1 = none) :
    Replays c w (episodeBody c epI w).2.2 (episodeBody c epI w).2.1 ∧
    maxStepsCalls (episodeBody c epI w).2.2 = [maxStepsOf c w] ∧
    (∀ x ∈ (episodeBody c epI w).2.2, x.err = none) ∧
    kinds (episodeBody c epI w).2.2 = orderOf (recorded (episodeBody c epI w).2.2).length ∧
    (kinds (episodeBody c epI w).2.2).count Kind.Step
      = (recorded (episodeBody c epI w).2.2).length ∧
    (recorded (episodeBody c epI w).2.2).length ≤ maxStepsOf c w ∧
    (∀ k ev, (recorded (episodeBody c epI w).2.2)[k]? = some ev → ev.Outcome.Done = true →
      (recorded (episodeBody c epI w).2.2).length = k + 1) ∧
    ((∀ ev ∈ recorded (episodeBody c epI w).2.2, ev.Outcome.Done = false) →
      (recorded (episodeBody c epI w).2.2).length = maxStepsOf c w) := by
  have hrun := (episodeBody_run c epI w).1
  have hstop := episodeRun_stops hrun
  have hrep := episodeBody_replays c epI w
  rw [h] at hrun hstop
  obtain ⟨n, h1, h2, h3, h4, h5⟩ := episodeRun_counts hrun
  have hn : n = maxStepsOf c w := episodeRun_maxSteps c hrun hrep n h1
  subst hn
  refine ⟨hrep, h1, hstop, h2, ?_, h3, h4, h5⟩
  rw [h2, count_Step_orderOf]

/-- C8, at concrete inputs: the scripted environment that signals done on
step 3, with `MaxSteps() = 10`, runs without error, records 3 events and ends
with these 3 events in the experience store; with done never signalled and
`MaxSteps() = 4` it records 4 events. -/
theorem episode_stops_at_done_or_MaxSteps_witness :
    (episodeBody (scriptedStore 10 3) 0 (0, [])).1 = none ∧
    maxStepsOf (scriptedStore 10 3) (0, []) = 10 ∧
    (recorded (episodeBody (scriptedStore 10 3) 0 (0, [])).2.2).length = 3 ∧
    (episodeBody (scriptedStore 10 3) 0 (0, [])).2.1 =
      (3, [⟨0, 10, ⟨1, 1, false⟩⟩, ⟨1, 11, ⟨2, 1, false⟩⟩, ⟨2, 12, ⟨3, 1, true⟩⟩]) ∧
    (recorded (episodeBody (scriptedStore 4 0) 0 (0, [])).2.2).length = 4 ∧
    (Replays (scriptedStore 10 3) (0, []) (episodeBody (scriptedStore 10 3) 0 (0, [])).2.2
        (episodeBody (scriptedStore 10 3) 0 (0, [])).2.1 ∧
      maxStepsCalls (episodeBody (scriptedStore 10 3) 0 (0, [])).2.2
        = [maxStepsOf (scriptedStore 10 3) (0, [])] ∧
      (∀ x ∈ (episodeBody (scriptedStore 10 3) 0 (0, [])).2.2, x.err = none) ∧
      kinds (episodeBody (scriptedStore 10 3) 0 (0, [])).2.2
        = orderOf (recorded (episodeBody (scriptedStore 10 3) 0 (0, [])).2.2).length ∧
      (kinds (episodeBody (scriptedStore 10 3) 0 (0, [])).2.2).count Kind.Step
        = (recorded (episodeBody (scriptedStore 10 3) 0 (0, [])).2.2).length ∧
      (recorded (episodeBody (scriptedStore 10 3) 0 (0, [])).2.2).length
        ≤ maxStepsOf (scriptedStore 10 3) (0, []) ∧
      (∀ k ev, (recorded (episodeBody (scriptedStore 10 3) 0 (0, [])).2.2)[k]? = some ev →
        ev.Outcome.Done = true →
        (recorded (episodeBody (scriptedStore 10 3) 0 (0, [])).2.2).length = k + 1) ∧
      ((∀ ev ∈ recorded (episodeBody (scriptedStore 10 3) 0 (0, [])).2.2,
          ev.Outcome.Done = false) →
        (recorded (episodeBody (scriptedStore 10 3) 0 (0, [])).2.2).length
          = maxStepsOf (scriptedStore 10 3) (0, []))) :=
  ⟨by decide, by decide, by decide, by decide, by decide,
    episode_stops_at_done_or_MaxSteps (scriptedStore 10 3) 0 (0, []) (by decide)⟩

/-- C9: in the training loop, a call that returns an error is the last call
made and its error is what the program stops with; a program that stops with
an error stops with the error of its last call. When `env.Step` fails in a
timestep, the body stops there with that error after the Action and Step
calls only, and the events recorded are those recorded before that Step. -/
theorem errors_stop_the_loop (c : Collab Obs Act Rew Err W) (w : W) :
    (∀ pre x post, (main c w).2.2 = pre ++ x :: post → x.err ≠ none →
      post = [] ∧ (main c w).1 = x.err) ∧
    (∀ er, (main c w).1 = some er →
      ∃ pre x, (main c w).2.2 = pre ++ [x] ∧ (∀ y ∈ pre, y.err = none) ∧ x.err = some er) ∧
    ((main c w).1 = none → ∀ x ∈ (main c w).2.2, x.err = none) ∧
    (∀ epI tI state w0 a w1 o er w2, c.Action state w0 = ((a, none), w1) →
      c.Step a w1 = ((o, some er), w2) →
      timestepBody c epI tI state w0
        = (.halt er, w2, [.action state a none, .step a o (some er)])) ∧
    (∀ pre a o er post, (main c w).2.2 = pre ++ Call.step a o (some er) :: post →
      recorded (main c w).2.2 = recorded pre) := by
  have hs := main_stops c w
  refine ⟨fun pre x post htr hx => stopsAtError_last hs pre x post htr hx, ?_, ?_, ?_, ?_⟩
  · intro er her
    rw [her] at hs
    exact hs
  · intro hn
    rw [hn] at hs
    exact hs
  · intro epI tI state w0 a w1 o er w2 hA hS
    simp only [timestepBody, hA, hS, NoError, List.singleton_append]
  · intro pre a o er post htr
    obtain ⟨hp, -⟩ := stopsAtError_last hs pre _ post htr (by simp [Call.err])
    rw [htr, hp, recorded_append]
    simp [recorded]

/-- C9, at concrete inputs: with `env.Step` failing on the second step, the
whole program stops there: one event recorded, the failing Step call last. -/
theorem errors_stop_the_loop_witness :
    (main (scripted 10 5 2) 0).1 = some "step failed" ∧
    recorded (main (scripted 10 5 2) 0).2.2 = [⟨0, 10, ⟨1, 1, false⟩⟩] ∧
    (main (scripted 10 5 2) 0).2.2.getLast? = some (.step 11 ⟨2, 0, false⟩ (some "step failed")) ∧
    ∃ pre x, (main (scripted 10 5 2) 0).2.2 = pre ++ [x] ∧ (∀ y ∈ pre, y.err = none) ∧
      x.err = some "step failed" :=
  ⟨by decide, by decide, by decide,
    (errors_stop_the_loop (scripted 10 5 2) 0).2.1 "step failed" (by decide)⟩

/-- C10: the events recorded in an episode form a chain. The episode starts
with the call of `env.Reset`; the first recorded event has the observation
Reset returned as its state; each later event has as its state the
observation of the outcome of the event before; and every `Remember(ev)`
comes right after the Action call on `ev.State` that returned `ev.Action` and
the Step call on `ev.Action` that returned `ev.Outcome`. -/
theorem events_form_chain (c : Collab Obs Act Rew Err W) (epI : Nat) (w : W) :
    (episodeBody c epI w).2.2.head? = some (.reset (c.Reset w).1.1 (c.Reset w).1.2) ∧
    (∀ ev, (recorded (episodeBody c epI w).2.2).head? = some ev →
      ev.State = (c.Reset w).1.1.Observation) ∧
    (recorded (episodeBody c epI w).2.2).Chain'
      (fun e1 e2 => e2.State = e1.Outcome.Observation) ∧
    (∀ pre ev post, (episodeBody c epI w).2.2 = pre ++ Call.remember ev :: post →
      ∃ pre1, pre = pre1 ++ [.action ev.State ev.Action none,
        .step ev.Action ev.Outcome none, .aux (.scoreInc ev.Outcome.Reward)]) := by
  obtain ⟨hrun, hhead⟩ := episodeBody_run c epI w
  obtain ⟨hp, h1, h2⟩ := episodeRun_chain hrun
  exact ⟨hhead, fun ev hev => h1 _ _ ev hhead hev, h2, hp⟩

/-- C10, at concrete inputs: the three events of the scripted episode. -/
theorem events_form_chain_witness :
    recorded (episodeBody (scripted 10 3 0) 0 0).2.2 =
      [⟨0, 10, ⟨1, 1, false⟩⟩, ⟨1, 11, ⟨2, 1, false⟩⟩, ⟨2, 12, ⟨3, 1, true⟩⟩] ∧
    (recorded (episodeBody (scripted 10 3 0) 0 0).2.2).Chain'
      (fun e1 e2 => e2.State = e1.Outcome.Observation) :=
  ⟨by decide, (events_form_chain (scripted 10 3 0) 0 0).2.2.1⟩

end LoopClaims

end Gold
